import Mathlib

/-!
Verification of the sports_betting repository against its design specification.

The repository's TypeScript sources are shallowly embedded below:
* the HTTP API client (`gamesApi` in the api service module),
* the game-details fetch logic (`fetchGameDetails` in the game-details context),
* the odds grouping on the game page (`groupOddsByMarket`),
* the profile page's win-rate display,
and, for the wallet/settlement ledger and the recommendation engine — whose
balance-mutating implementation lives in the backend package
(`sports_intel/paper_trade`, `sports_intel/betting` per the repository layout)
and is not among the provided sources — models built from the specification's
own wording (each marked `Modelled from the spec:`).

Machine numbers are modelled as exact rationals (`ℚ`); JavaScript `undefined`
fields are modelled as `Option`.
-/

/-! ### HTTP API client (api service module, `gamesApi`)

The fetch layer is modelled by the possible outcomes of one request:
the request succeeds with a parsed body, the response arrives with a
non-ok status, the network call itself fails, or the body fails to parse.
In the source, the last three all throw inside the `try` block.  -/

inductive HttpOutcome (α : Type) where
  | success (body : α)
  | httpError (status : Nat)
  | networkFailure
  | parseFailure
deriving DecidableEq

namespace gamesApi

/-- Embeds `gamesApi.getUpcomingGames`: the `try` block returns the parsed
body; every thrown error (non-ok status, network failure, parse failure)
is caught, logged, and turned into the empty array. -/
def getUpcomingGames {α : Type} (o : HttpOutcome (List α)) : Except String (List α) :=
  match o with
  | .success body => .ok body
  | .httpError _ => .ok []
  | .networkFailure => .ok []
  | .parseFailure => .ok []

/-- Embeds `gamesApi.getGameDetails`: the `catch` block logs and rethrows,
so every failure propagates to the caller as an error. -/
def getGameDetails {α : Type} (o : HttpOutcome α) : Except String α :=
  match o with
  | .success body => .ok body
  | .httpError s => .error ("Error: " ++ toString s)
  | .networkFailure => .error "network failure"
  | .parseFailure => .error "parse failure"

end gamesApi

/-! ### Profile page win-rate display

`profile` is loosely typed in the source, so `total_bets` may be absent;
absence is modelled as `none`.  A JavaScript comparison `undefined > 0`
is false, which `jsGtZero` reproduces. -/

structure UserProfile where
  total_bets : Option Nat
  won_bets : Nat
deriving DecidableEq

/-- JavaScript truthiness of `x > 0` when `x` may be `undefined`. -/
def jsGtZero (x : Option Nat) : Bool :=
  match x with
  | some n => decide (0 < n)
  | none => false

/-- Models `((won / total) * 100).toFixed(1)` followed by `%`: the exact
ratio as a percentage, rounded half-up to one decimal place and rendered. -/
def formatPercent1 (won total : Nat) : String :=
  let tenths : Nat := (2000 * won + total) / (2 * total)
  toString (tenths / 10) ++ "." ++ toString (tenths % 10) ++ "%"

/-- Embeds the win-rate cell of the profile page:
`profile.total_bets > 0 ? ((profile.won_bets / profile.total_bets) * 100).toFixed(1) + "%" : "0%"`. -/
def winRateDisplay (p : UserProfile) : String :=
  if jsGtZero p.total_bets then formatPercent1 p.won_bets (p.total_bets.getD 0)
  else "0%"

/-! ### Game-details fetch logic (game-details context, `fetchGameDetails`)

The fetch outcome is the result of `gamesApi.getGameDetails`: either a list
of raw odds items or a thrown error.  ISO timestamps are modelled as
millisecond counts; `Date.now()` is the explicit parameter `now`. -/

structure RawOddsItem where
  event_id : String
  event_name : Option String
  home_team : Option String
  away_team : Option String
  start_date : Option Nat
  home_team_abbreviation : Option String
  away_team_abbreviation : Option String
  competition_name : Option String
deriving DecidableEq

structure GameDetails where
  event_id : String
  name : String
  home_team : String
  away_team : String
  start : Nat
  home_team_abbreviation : Option String
  away_team_abbreviation : Option String
  competition_name : Option String
deriving DecidableEq

/-- The provider state set by `fetchGameDetails` (`gameDetails`, `oddsLines`,
`error` in the React context). -/
structure GameDetailsState where
  gameDetails : Option GameDetails
  oddsLines : List RawOddsItem
  error : Option String
deriving DecidableEq

/-- Embeds the hardcoded `teamMappings` record used by both fallback paths. -/
def teamMappings (abbr : String) : Option String :=
  if abbr = "LAL" then some "Los Angeles Lakers"
  else if abbr = "MIA" then some "Miami Heat"
  else if abbr = "GSW" then some "Golden State Warriors"
  else if abbr = "BOS" then some "Boston Celtics"
  else if abbr = "PHX" then some "Phoenix Suns"
  else if abbr = "DAL" then some "Dallas Mavericks"
  else none

/-- Splits a character list on a separator character. -/
def splitChar (sep : Char) : List Char → List (List Char)
  | [] => [[]]
  | c :: rest =>
      let r := splitChar sep rest
      if c = sep then [] :: r
      else
        match r with
        | [] => [[c]]
        | g :: gs => (c :: g) :: gs

/-- JavaScript `eventId.split('_')` for the single-character separator. -/
def jsSplit (s : String) (sep : Char) : List String :=
  (splitChar sep s.data).map fun cs => ⟨cs⟩

/-- Embeds the fallback `gameInfo` both failure paths construct: team names
derived from the event id via `teamMappings`, start time one day ahead.
A missing `teams[1]` (JavaScript `undefined`) is modelled as `""`. -/
def fallbackGameDetails (eventId : String) (now : Nat) : GameDetails :=
  let teams := jsSplit eventId '_'
  let awayAbbr := teams.getD 0 ""
  let homeAbbr := teams.getD 1 ""
  let homeTeam := (teamMappings homeAbbr).getD homeAbbr
  let awayTeam := (teamMappings awayAbbr).getD awayAbbr
  { event_id := eventId
    name := awayTeam ++ " @ " ++ homeTeam
    home_team := homeTeam
    away_team := awayTeam
    start := now + 86400000
    home_team_abbreviation := some homeAbbr
    away_team_abbreviation := some awayAbbr
    competition_name := some "NBA" }

/-- Embeds the `gameInfo` built from `data[0]` on the non-empty success path
(the source's `||` defaults on possibly-missing fields become `getD`). -/
def gameDetailsOfItem (eventId : String) (it : RawOddsItem) (now : Nat) : GameDetails :=
  { event_id := it.event_id
    name := it.event_name.getD ("Game " ++ eventId)
    home_team := it.home_team.getD "Home Team"
    away_team := it.away_team.getD "Away Team"
    start := it.start_date.getD now
    home_team_abbreviation := some (it.home_team_abbreviation.getD "HOME")
    away_team_abbreviation := some (it.away_team_abbreviation.getD "AWAY")
    competition_name := some (it.competition_name.getD "NBA") }

/-- Embeds the state transition of `fetchGameDetails` once the fetch has
resolved (the cache-hit early returns leave the state as it was and are not
modelled): an empty payload triggers the fallback mock data with empty odds;
a non-empty payload populates details and odds from the data; a thrown error
triggers the fallback mock data, records the error, and leaves the previous
odds lines in place (the catch path never touches `oddsLines`). -/
def fetchGameDetailsStep (st : GameDetailsState) (eventId : String)
    (fetched : Except String (List RawOddsItem)) (now : Nat) : GameDetailsState :=
  match fetched with
  | .ok [] =>
      { gameDetails := some (fallbackGameDetails eventId now)
        oddsLines := []
        error := none }
  | .ok (first :: rest) =>
      { gameDetails := some (gameDetailsOfItem eventId first now)
        oddsLines := first :: rest
        error := none }
  | .error e =>
      { gameDetails := some (fallbackGameDetails eventId now)
        oddsLines := st.oddsLines
        error := some ("Could not fetch odds data: " ++ e) }

/-! ### Odds grouping on the game page (`groupOddsByMarket`) -/

structure OddsLine where
  event_id : String
  market_name : String
  outcome_name : String
  price : Int
  line : Option ℚ
  participant : Option String
deriving DecidableEq

/-- Substring containment on character lists (JavaScript `String.includes`). -/
def hasSubstr (pat : List Char) : List Char → Bool
  | [] => pat.isEmpty
  | c :: rest => pat.isPrefixOf (c :: rest) || hasSubstr pat rest

/-- The source's classification: a line is a player prop when its market name
contains the substring `Player` or its `participant` field is set.  The
source's `line.market_name || ''` maps only the empty string to itself, so
the key is the market name unchanged. -/
def isPlayerLine (l : OddsLine) : Bool :=
  hasSubstr "Player".data l.market_name.data || l.participant.isSome

/-- Appends a line to the bucket for key `k`, creating the bucket at the end
when absent — JavaScript object insertion order for `record[k].push(line)`. -/
def insertLine (m : List (String × List OddsLine)) (k : String) (l : OddsLine) :
    List (String × List OddsLine) :=
  match m with
  | [] => [(k, [l])]
  | (k2, ls) :: rest =>
      if k2 = k then (k2, ls ++ [l]) :: rest else (k2, ls) :: insertLine rest k l

/-- One iteration of the source's `lines.forEach`. -/
def groupStep (acc : List (String × List OddsLine) × List (String × List OddsLine))
    (l : OddsLine) :
    List (String × List OddsLine) × List (String × List OddsLine) :=
  if isPlayerLine l then (acc.1, insertLine acc.2 l.market_name l)
  else (insertLine acc.1 l.market_name l, acc.2)

/-- Embeds `groupOddsByMarket`: first component `mainMarkets`, second
component `playerProps`, each a record from market name to its lines. -/
def groupOddsByMarket (lines : List OddsLine) :
    List (String × List OddsLine) × List (String × List OddsLine) :=
  lines.foldl groupStep ([], [])

/-- Looks up the bucket stored under key `k` (empty when the key is absent). -/
def marketBucket (m : List (String × List OddsLine)) (k : String) : List OddsLine :=
  match m with
  | [] => []
  | (k2, ls) :: rest => if k2 = k then ls else marketBucket rest k

/-! ### Ledger / settlement state machine

Modelled from the spec: the balance-mutating ledger lives in the backend
package (`sports_intel/paper_trade` in the repository layout) and is not among
the provided sources — the frontend's `placeBet` only inserts a `user_bets`
row and the schema only declares the fields (status defaulting to pending).
The definitions below follow the specification's section on the ledger
state machine word for word. -/

inductive BetStatus where
  | PENDING
  | WON
  | LOST
  | PUSH
deriving DecidableEq

inductive LedgerError where
  | InsufficientBalance
  | GameAlreadyFinal
  | BetNotFound
  | AlreadySettled
deriving DecidableEq

structure Wallet where
  balance : ℚ
  total_winnings : ℚ
  total_losses : ℚ
  total_bets : Nat
  won_bets : Nat
deriving DecidableEq

structure Bet where
  game_id : String
  market_description : String
  stake : ℚ
  price : Int
  status : BetStatus
  settled_amount : Option ℚ
deriving DecidableEq

structure Game where
  id : String
  final : Bool
deriving DecidableEq

structure Ledger where
  wallet : Wallet
  bets : List Bet
deriving DecidableEq

/-- Modelled from the spec: the payout multiplier of an American price —
`1 + price/100` for positive prices, `1 + 100/(−price)` for negative ones
(so +110 gives 2.10). -/
def payoutMultiplier (price : Int) : ℚ :=
  if 0 < price then 1 + (price : ℚ) / 100 else 1 + 100 / (-(price : ℚ))

/-- Modelled from the spec: the Ledger `place(bet)` operation.  Requires
`stake > 0`, `stake ≤ wallet.balance`, and the referenced game not yet
final; on success debits the balance by the stake, appends a PENDING bet,
and increments `total_bets`.  Otherwise it fails with the explicit error
kind and returns the state unchanged (no partial effects); the stake checks
come first, matching the order the spec lists the requirements in. -/
def place (st : Ledger) (g : Game) (desc : String) (stake : ℚ) (price : Int) :
    Ledger × Option LedgerError :=
  if 0 < stake ∧ stake ≤ st.wallet.balance then
    if g.final then (st, some .GameAlreadyFinal)
    else
      (⟨{ st.wallet with
            balance := st.wallet.balance - stake
            total_bets := st.wallet.total_bets + 1 },
        st.bets ++ [⟨g.id, desc, stake, price, .PENDING, none⟩]⟩, none)
  else (st, some .InsufficientBalance)

/-- The outcome the final game result assigns to one bet's market condition. -/
inductive BetOutcome where
  | won
  | lost
  | push
deriving DecidableEq

def statusOfOutcome : BetOutcome → BetStatus
  | .won => .WON
  | .lost => .LOST
  | .push => .PUSH

/-- Modelled from the spec: the amount credited back to the balance on
settlement — `stake × payoutMultiplier(price)` on a win, the exact stake on
a push, nothing on a loss. -/
def creditOfOutcome (b : Bet) : BetOutcome → ℚ
  | .won => b.stake * payoutMultiplier b.price
  | .push => b.stake
  | .lost => 0

/-- Modelled from the spec: the wallet update for settling one bet —
WON credits the payout and bumps `total_winnings` and `won_bets`; PUSH
refunds exactly the stake with no win or loss counted; LOST credits nothing
and adds the stake to `total_losses`. -/
def settleWallet (w : Wallet) (b : Bet) : BetOutcome → Wallet
  | .won =>
      { w with
          balance := w.balance + b.stake * payoutMultiplier b.price
          total_winnings := w.total_winnings + b.stake * payoutMultiplier b.price
          won_bets := w.won_bets + 1 }
  | .push => { w with balance := w.balance + b.stake }
  | .lost => { w with total_losses := w.total_losses + b.stake }

/-- A bet is settled by this batch when it is on the settled game and still
PENDING. -/
def toSettle (gid : String) (b : Bet) : Bool :=
  b.game_id == gid && b.status == BetStatus.PENDING

/-- The record update for one bet in a settlement batch: bets selected by
`toSettle` move to the terminal status of their outcome and record the
settled amount; every other bet is untouched. -/
def settleBetRecord (oc : Bet → BetOutcome) (gid : String) (b : Bet) : Bet :=
  if toSettle gid b then
    { b with
        status := statusOfOutcome (oc b)
        settled_amount := some (creditOfOutcome b (oc b)) }
  else b

/-- Modelled from the spec: `settle(gameFinalResult)` — for every PENDING bet
on the now-final game, evaluates the bet's market condition (`oc`) against
the final result and applies the wallet update; all updates of one batch are
applied together.  A game without an official final result is deferred: the
state is returned unchanged and bets remain PENDING. -/
def settle (st : Ledger) (g : Game) (oc : Bet → BetOutcome) : Ledger :=
  if g.final then
    { wallet :=
        st.bets.foldl (fun w b => if toSettle g.id b then settleWallet w b (oc b) else w)
          st.wallet
      bets := st.bets.map (settleBetRecord oc g.id) }
  else st

/-! ### Recommendation engine

Modelled from the spec: the sizing and ranking logic lives in the backend
package (`sports_intel/betting` in the repository layout) and is not among
the provided sources — the frontend only renders recommendation mock data.
The definitions follow the specification's recommendation-engine section:
capped Kelly-style sizing, ranking by confidence, edge, then expected value,
and truncation under the daily risk cap. -/

structure EvaluatedMarket where
  lineId : String
  price : Int
  modelProb : ℚ
  impliedProb : ℚ
  edge : ℚ
  confidence : ℚ
  viable : Bool
deriving DecidableEq

structure RecConfig where
  maxFraction : ℚ
  minStake : ℚ
  maxStake : ℚ
  dailyRiskCap : ℚ
deriving DecidableEq

structure Recommendation where
  market : EvaluatedMarket
  stake : ℚ
  expectedValue : ℚ
deriving DecidableEq

/-- Modelled from the spec: stake sizing — a Kelly-style fraction
`edge / (payoutMultiplier − 1)` of the bankroll, clamped to
`[minStake, maxStake]` and to `maxFraction × bankroll`. -/
def sizedStake (cfg : RecConfig) (bankroll : ℚ) (m : EvaluatedMarket) : ℚ :=
  let payoutFactor := payoutMultiplier m.price - 1
  let f := if payoutFactor = 0 then 0 else m.edge / payoutFactor
  min (min (max (f * bankroll) cfg.minStake) cfg.maxStake) (cfg.maxFraction * bankroll)

/-- Ranking order: confidence descending, tie-break edge descending, final
tie-break expected value descending. -/
def rankBefore (a b : Recommendation) : Bool :=
  decide (b.market.confidence < a.market.confidence)
  || (decide (b.market.confidence = a.market.confidence)
      && (decide (b.market.edge < a.market.edge)
          || (decide (b.market.edge = a.market.edge)
              && decide (b.expectedValue ≤ a.expectedValue))))

def insertRanked (r : Recommendation) : List Recommendation → List Recommendation
  | [] => [r]
  | x :: xs => if rankBefore r x then r :: x :: xs else x :: insertRanked r xs

def sortRanked (l : List Recommendation) : List Recommendation :=
  l.foldr insertRanked []

/-- Modelled from the spec: the daily risk cap — lower-ranked recommendations
whose stakes would push the running total over the cap are truncated, not
proportionally shrunk. -/
def truncateToCap (cap : ℚ) : List Recommendation → List Recommendation
  | [] => []
  | r :: rs => if r.stake ≤ cap then r :: truncateToCap (cap - r.stake) rs else []

/-- Modelled from the spec: the recommendation generator — a function of the
viable evaluated markets, the bankroll, and the configuration alone (no
hidden state and no current-time input): size each viable market, rank,
and truncate under the daily risk cap.  Expected value is
`stake × edge-adjusted payout`, here `stake × edge × payoutMultiplier`. -/
def generateRecommendations (markets : List EvaluatedMarket) (bankroll : ℚ)
    (cfg : RecConfig) : List Recommendation :=
  let viable := markets.filter (fun m => m.viable)
  let recs := viable.map (fun m =>
    let s := sizedStake cfg bankroll m
    ⟨m, s, s * m.edge * payoutMultiplier m.price⟩)
  truncateToCap cfg.dailyRiskCap (sortRanked recs)

/-! ### Theorems -/

/-- C8: `gamesApi.getUpcomingGames` never throws — every outcome yields an
`ok` result, which is the empty array whenever the request failed or the
response status was not ok, and the parsed body exactly on success; by
contrast `gamesApi.getGameDetails` rethrows its error to the caller. -/
theorem getUpcomingGames_never_throws :
    (∀ (α : Type) (o : HttpOutcome (List α)), (gamesApi.getUpcomingGames o).isOk = true)
    ∧ (∀ (α : Type) (body : List α),
        gamesApi.getUpcomingGames (HttpOutcome.success body) = Except.ok body)
    ∧ (∀ (α : Type) (s : Nat),
        gamesApi.getUpcomingGames (HttpOutcome.httpError s : HttpOutcome (List α)) = Except.ok [])
    ∧ (∀ (α : Type),
        gamesApi.getUpcomingGames (HttpOutcome.networkFailure : HttpOutcome (List α)) = Except.ok []
        ∧ gamesApi.getUpcomingGames (HttpOutcome.parseFailure : HttpOutcome (List α)) = Except.ok [])
    ∧ (∀ (α : Type) (s : Nat), ∃ e,
        gamesApi.getGameDetails (HttpOutcome.httpError s : HttpOutcome α) = Except.error e)
    ∧ (∀ (α : Type), ∃ e,
        gamesApi.getGameDetails (HttpOutcome.networkFailure : HttpOutcome α) = Except.error e) := by
  refine ⟨fun α o => ?_, fun α body => rfl, fun α s => rfl, fun α => ⟨rfl, rfl⟩,
    fun α s => ⟨"Error: " ++ toString s, rfl⟩, fun α => ⟨"network failure", rfl⟩⟩
  cases o <;> rfl

/-- C10: the profile page's win-rate cell divides only under the guard
`total_bets > 0`: when `total_bets` is absent or zero the literal string
`0%` is shown, and the percentage formatter is reached only with a nonzero
denominator. -/
theorem winRateDisplay_guard (p : UserProfile) :
    (p.total_bets = none ∨ p.total_bets = some 0 → winRateDisplay p = "0%")
    ∧ (∀ n : Nat, p.total_bets = some n → 0 < n →
        winRateDisplay p = formatPercent1 p.won_bets n ∧ n ≠ 0) := by
  constructor
  · rintro (h | h) <;> simp [winRateDisplay, jsGtZero, h]
  · intro n hn hpos
    constructor
    · simp [winRateDisplay, jsGtZero, hn, hpos]
    · omega

/-- Witness for C10 at concrete profiles: absent and zero `total_bets` give
the literal `0%`; a profile with 3 of 4 bets won reaches the formatter with
the nonzero denominator 4. -/
theorem winRateDisplay_guard_witness :
    winRateDisplay ⟨none, 3⟩ = "0%"
    ∧ winRateDisplay ⟨some 0, 3⟩ = "0%"
    ∧ winRateDisplay ⟨some 4, 3⟩ = formatPercent1 3 4 :=
  ⟨(winRateDisplay_guard ⟨none, 3⟩).1 (Or.inl rfl),
   (winRateDisplay_guard ⟨some 0, 3⟩).1 (Or.inr rfl),
   ((winRateDisplay_guard ⟨some 4, 3⟩).2 4 rfl (by decide)).1⟩

/-- C6 counterexample: with no odds data available for event `LAL_MIA`
(the fetch resolved with an empty payload), `fetchGameDetails` does not
present the game as not yet available — it publishes fabricated fallback
game details whose team names (`Miami Heat`, `Los Angeles Lakers`) come
from a hardcoded mapping, not from any fetched data. -/
theorem fetchGameDetails_fabricates_fallback :
    (fetchGameDetailsStep ⟨none, [], none⟩ "LAL_MIA" (Except.ok []) 0).gameDetails
      = some (fallbackGameDetails "LAL_MIA" 0)
    ∧ (fallbackGameDetails "LAL_MIA" 0).home_team = "Miami Heat"
    ∧ (fallbackGameDetails "LAL_MIA" 0).away_team = "Los Angeles Lakers"
    ∧ (fetchGameDetailsStep ⟨none, [], none⟩ "LAL_MIA" (Except.ok []) 0).gameDetails ≠ none := by
  refine ⟨rfl, by decide, by decide, ?_⟩
  simp [fetchGameDetailsStep]

/-- C6 amended: when no odds data is available for a game — the fetch
resolved with an empty payload or failed — `fetchGameDetails` substitutes
fabricated fallback game details (team names derived from the event id via a
hardcoded mapping, start time one day ahead); the empty-payload path clears
the odds lines, while the failure path records an error message and leaves
the previous odds lines in place. -/
theorem fetchGameDetails_fallback_behavior (st : GameDetailsState) (eventId : String)
    (now : Nat) (e : String) :
    fetchGameDetailsStep st eventId (Except.ok []) now
      = ⟨some (fallbackGameDetails eventId now), [], none⟩
    ∧ fetchGameDetailsStep st eventId (Except.error e) now
      = ⟨some (fallbackGameDetails eventId now), st.oddsLines,
         some ("Could not fetch odds data: " ++ e)⟩ :=
  ⟨rfl, rfl⟩

/-- C7: the recommendation generator is a pure deterministic function —
two invocations on identical viable evaluated markets, identical bankroll,
and identical configuration produce identical output; the definition takes
no hidden state and no current-time input. -/
theorem generateRecommendations_pure (m1 m2 : List EvaluatedMarket) (b1 b2 : ℚ)
    (c1 c2 : RecConfig) (hm : m1 = m2) (hb : b1 = b2) (hc : c1 = c2) :
    generateRecommendations m1 b1 c1 = generateRecommendations m2 b2 c2 := by
  subst hm
  subst hb
  subst hc
  rfl

/-- Witness for C7 at a concrete input: two invocations on one equal viable
market, bankroll 1000, and one configuration agree. -/
theorem generateRecommendations_pure_witness :
    generateRecommendations [⟨"L1", 110, 1/2, 2/5, 1/10, 9/10, true⟩] 1000 ⟨1/4, 1, 50, 200⟩
      = generateRecommendations [⟨"L1", 110, 1/2, 2/5, 1/10, 9/10, true⟩] 1000 ⟨1/4, 1, 50, 200⟩ :=
  generateRecommendations_pure _ _ _ _ _ _ rfl rfl rfl

/-- C1: when `stake > 0`, `stake ≤ wallet.balance`, and the referenced game
is not yet final, `place` succeeds (no error), debits the balance by exactly
the stake, appends a Bet in PENDING, and increments `total_bets` by one,
leaving the other wallet counters untouched. -/
theorem place_success (st : Ledger) (g : Game) (d : String) (stake : ℚ) (price : Int)
    (hpos : 0 < stake) (hbal : stake ≤ st.wallet.balance) (hfin : g.final = false) :
    (place st g d stake price).2 = none
    ∧ (place st g d stake price).1.wallet.balance = st.wallet.balance - stake
    ∧ (place st g d stake price).1.wallet.total_bets = st.wallet.total_bets + 1
    ∧ (place st g d stake price).1.wallet.total_winnings = st.wallet.total_winnings
    ∧ (place st g d stake price).1.wallet.total_losses = st.wallet.total_losses
    ∧ (place st g d stake price).1.wallet.won_bets = st.wallet.won_bets
    ∧ (place st g d stake price).1.bets
        = st.bets ++ [⟨g.id, d, stake, price, BetStatus.PENDING, none⟩] := by
  simp [place, hpos, hbal, hfin]

/-- Witness for C1: placing a 5-unit stake against a 10-unit balance on a
non-final game debits to 5, records one PENDING bet, and counts one bet. -/
theorem place_success_witness :
    (place ⟨⟨10, 0, 0, 0, 0⟩, []⟩ ⟨"G1", false⟩ "ml" 5 100).2 = none
    ∧ (place ⟨⟨10, 0, 0, 0, 0⟩, []⟩ ⟨"G1", false⟩ "ml" 5 100).1.wallet.balance = 10 - 5
    ∧ (place ⟨⟨10, 0, 0, 0, 0⟩, []⟩ ⟨"G1", false⟩ "ml" 5 100).1.wallet.total_bets = 0 + 1
    ∧ (place ⟨⟨10, 0, 0, 0, 0⟩, []⟩ ⟨"G1", false⟩ "ml" 5 100).1.bets
        = [] ++ [⟨"G1", "ml", 5, 100, BetStatus.PENDING, none⟩] := by
  have h := place_success ⟨⟨10, 0, 0, 0, 0⟩, []⟩ ⟨"G1", false⟩ "ml" 5 100
    (by norm_num) (by norm_num) rfl
  exact ⟨h.1, h.2.1, h.2.2.1, h.2.2.2.2.2.2⟩

/-- C2: when the stake exceeds the wallet's balance, `place` returns the
explicit error `InsufficientBalance`; when the referenced game is already
final (and the stake itself passes its checks), it returns
`GameAlreadyFinal`; in both cases the returned state is exactly the input
state — wallet and bets completely unchanged, no partial effects. -/
theorem place_failure (st : Ledger) (g : Game) (d : String) (stake : ℚ) (price : Int) :
    (st.wallet.balance < stake →
        place st g d stake price = (st, some LedgerError.InsufficientBalance))
    ∧ (g.final = true → 0 < stake → stake ≤ st.wallet.balance →
        place st g d stake price = (st, some LedgerError.GameAlreadyFinal)) := by
  constructor
  · intro hlt
    have hnot : ¬ (0 < stake ∧ stake ≤ st.wallet.balance) := by
      rintro ⟨-, hle⟩
      exact absurd hlt (not_lt.mpr hle)
    simp [place, hnot]
  · intro hfin hpos hle
    simp [place, hpos, hle, hfin]

/-- Witness for C2: a 20-unit stake against a 10-unit balance fails with
`InsufficientBalance`, and a valid stake on a final game fails with
`GameAlreadyFinal`; both leave the state untouched. -/
theorem place_failure_witness :
    place ⟨⟨10, 0, 0, 0, 0⟩, []⟩ ⟨"G1", false⟩ "ml" 20 100
      = (⟨⟨10, 0, 0, 0, 0⟩, []⟩, some LedgerError.InsufficientBalance)
    ∧ place ⟨⟨10, 0, 0, 0, 0⟩, []⟩ ⟨"G1", true⟩ "ml" 5 100
      = (⟨⟨10, 0, 0, 0, 0⟩, []⟩, some LedgerError.GameAlreadyFinal) :=
  ⟨(place_failure ⟨⟨10, 0, 0, 0, 0⟩, []⟩ ⟨"G1", false⟩ "ml" 20 100).1 (by norm_num),
   (place_failure ⟨⟨10, 0, 0, 0, 0⟩, []⟩ ⟨"G1", true⟩ "ml" 5 100).2 rfl (by norm_num)
     (by norm_num)⟩

/-- Scenario B start state: balance 1000, nothing wagered yet. -/
def walletB0 : Wallet := ⟨1000, 0, 0, 0, 0⟩

/-- Scenario B placement: stake 50 at American price +110. -/
def placedB : Ledger × Option LedgerError :=
  place ⟨walletB0, []⟩ ⟨"GB", false⟩ "moneyline" 50 110

/-- Scenario B settlement: the game goes final and the bet wins. -/
def settledB : Ledger :=
  settle placedB.1 ⟨"GB", true⟩ fun _ => BetOutcome.won

/-- C5: stake 50 at +110 (payout multiplier 2.10) against balance 1000 —
after placement the balance is 950 and the bet is PENDING; settling the
win credits 105, brings the balance to 1055, and adds 105 to
`total_winnings`. -/
theorem scenarioB_exact :
    payoutMultiplier 110 = 21 / 10
    ∧ placedB.2 = none
    ∧ placedB.1.wallet.balance = 950
    ∧ placedB.1.bets = [⟨"GB", "moneyline", 50, 110, BetStatus.PENDING, none⟩]
    ∧ creditOfOutcome ⟨"GB", "moneyline", 50, 110, BetStatus.PENDING, none⟩ BetOutcome.won = 105
    ∧ settledB.wallet.balance = 1055
    ∧ settledB.wallet.total_winnings = walletB0.total_winnings + 105 := by
  refine ⟨by norm_num [payoutMultiplier], ?_, ?_, ?_, ?_, ?_, ?_⟩ <;>
    simp [placedB, settledB, place, settle, walletB0, toSettle, settleWallet,
      creditOfOutcome, payoutMultiplier, settleBetRecord] <;> norm_num

/-- Inserting a line into a record changes exactly the bucket of its key,
appending the line at the end of that bucket. -/
theorem marketBucket_insertLine (m : List (String × List OddsLine)) (k k2 : String)
    (l : OddsLine) :
    marketBucket (insertLine m k l) k2 =
      if k = k2 then marketBucket m k2 ++ [l] else marketBucket m k2 := by
  induction m with
  | nil =>
      by_cases h : k = k2 <;> simp [insertLine, marketBucket, h]
  | cons hd tl ih =>
      obtain ⟨k3, ls⟩ := hd
      by_cases h1 : k3 = k
      · subst h1
        by_cases h2 : k3 = k2 <;> simp [insertLine, marketBucket, h2]
      · by_cases h2 : k3 = k2
        · subst h2
          have hk : ¬ k = k3 := fun hk => h1 hk.symm
          simp [insertLine, marketBucket, h1, hk]
        · simp [insertLine, marketBucket, h1, h2, ih]

/-- Soundness of the grouping fold relative to an arbitrary accumulator. -/
theorem groupFold_bucket (lines : List OddsLine)
    (acc : List (String × List OddsLine) × List (String × List OddsLine)) (k : String) :
    marketBucket (lines.foldl groupStep acc).1 k
      = marketBucket acc.1 k
        ++ lines.filter (fun l => !isPlayerLine l && decide (l.market_name = k))
    ∧ marketBucket (lines.foldl groupStep acc).2 k
      = marketBucket acc.2 k
        ++ lines.filter (fun l => isPlayerLine l && decide (l.market_name = k)) := by
  induction lines generalizing acc with
  | nil => simp
  | cons l rest ih =>
      have h2 := ih (groupStep acc l)
      rw [List.foldl_cons]
      constructor
      · rw [h2.1]
        by_cases hp : isPlayerLine l
        · simp [groupStep, hp, List.filter_cons]
        · by_cases hk : l.market_name = k
          · simp [groupStep, hp, hk, marketBucket_insertLine, List.filter_cons]
          · simp [groupStep, hp, hk, marketBucket_insertLine, List.filter_cons]
      · rw [h2.2]
        by_cases hp : isPlayerLine l
        · by_cases hk : l.market_name = k
          · simp [groupStep, hp, hk, marketBucket_insertLine, List.filter_cons]
          · simp [groupStep, hp, hk, marketBucket_insertLine, List.filter_cons]
        · simp [groupStep, hp, List.filter_cons]

/-- C9: `groupOddsByMarket` partitions its input.  For every key, the
`mainMarkets` bucket is exactly the subsequence of input lines that are not
player props and carry that market name, and the `playerProps` bucket is
exactly the subsequence of player-prop lines with that market name — so each
input line lands in exactly one group, in the bucket keyed by its own
`market_name`, with relative input order preserved (`filter` keeps order)
and nothing dropped or duplicated. -/
theorem groupOddsByMarket_partitions (lines : List OddsLine) (k : String) :
    marketBucket (groupOddsByMarket lines).1 k
      = lines.filter (fun l => !isPlayerLine l && decide (l.market_name = k))
    ∧ marketBucket (groupOddsByMarket lines).2 k
      = lines.filter (fun l => isPlayerLine l && decide (l.market_name = k)) := by
  have h := groupFold_bucket lines ([], []) k
  simpa [groupOddsByMarket, marketBucket] using h

/-- C3: every Bet's status is one of PENDING, WON, LOST, PUSH; every status
change a ledger operation performs takes a PENDING bet to one of WON, LOST,
PUSH; a bet that is not PENDING is never touched; `settle` rewrites bets
exactly through the per-bet record update (or leaves the state untouched
when the game is not final); and `place` only ever appends a PENDING bet. -/
theorem bet_status_transitions :
    (∀ s : BetStatus,
        s = BetStatus.PENDING ∨ s = BetStatus.WON ∨ s = BetStatus.LOST ∨ s = BetStatus.PUSH)
    ∧ (∀ (oc : Bet → BetOutcome) (gid : String) (b : Bet),
        settleBetRecord oc gid b = b
        ∨ (b.status = BetStatus.PENDING
           ∧ ((settleBetRecord oc gid b).status = BetStatus.WON
              ∨ (settleBetRecord oc gid b).status = BetStatus.LOST
              ∨ (settleBetRecord oc gid b).status = BetStatus.PUSH)))
    ∧ (∀ (oc : Bet → BetOutcome) (gid : String) (b : Bet),
        b.status = BetStatus.PENDING ∨ settleBetRecord oc gid b = b)
    ∧ (∀ (st : Ledger) (g : Game) (oc : Bet → BetOutcome),
        (settle st g oc).bets = st.bets.map (settleBetRecord oc g.id)
        ∨ settle st g oc = st)
    ∧ (∀ (st : Ledger) (g : Game) (d : String) (stake : ℚ) (price : Int),
        (place st g d stake price).1.bets = st.bets
        ∨ (place st g d stake price).1.bets
            = st.bets ++ [⟨g.id, d, stake, price, BetStatus.PENDING, none⟩]) := by
  refine ⟨?_, ?_, ?_, ?_, ?_⟩
  · intro s
    cases s <;> simp
  · intro oc gid b
    cases ht : toSettle gid b with
    | false => exact Or.inl (by simp [settleBetRecord, ht])
    | true =>
        have hpend : b.status = BetStatus.PENDING := by
          have h2 := ht
          simp only [toSettle, Bool.and_eq_true, beq_iff_eq] at h2
          exact h2.2
        have hb : settleBetRecord oc gid b
            = { b with
                  status := statusOfOutcome (oc b)
                  settled_amount := some (creditOfOutcome b (oc b)) } := by
          simp [settleBetRecord, ht]
        refine Or.inr ⟨hpend, ?_⟩
        rw [hb]
        cases oc b <;> simp [statusOfOutcome]
  · intro oc gid b
    by_cases hb : b.status = BetStatus.PENDING
    · exact Or.inl hb
    · have ht : toSettle gid b = false := by
        simp [toSettle, hb]
      exact Or.inr (by simp [settleBetRecord, ht])
  · intro st g oc
    by_cases hf : g.final = true
    · exact Or.inl (by simp [settle, hf])
    · exact Or.inr (by simp [settle, hf])
  · intro st g d stake price
    by_cases hc : 0 < stake ∧ stake ≤ st.wallet.balance
    · by_cases hfin : g.final = true
      · exact Or.inl (by simp [place, hc, hfin])
      · exact Or.inr (by simp [place, hc, hfin])
    · exact Or.inl (by simp [place, hc])

/-- A bet that has just been through the settlement record update is never
selected for settlement again: its status is terminal (or it was not
selected in the first place). -/
theorem toSettle_settleBetRecord (oc : Bet → BetOutcome) (gid : String) (b : Bet) :
    toSettle gid (settleBetRecord oc gid b) = false := by
  cases ht : toSettle gid b with
  | false => simp [settleBetRecord, ht]
  | true =>
      have hb : settleBetRecord oc gid b
          = { b with
                status := statusOfOutcome (oc b)
                settled_amount := some (creditOfOutcome b (oc b)) } := by
        simp [settleBetRecord, ht]
      rw [hb]
      cases oc b <;> simp [toSettle, statusOfOutcome]

/-- Applying the settlement record update twice is the same as applying it
once. -/
theorem settleBetRecord_idem (oc : Bet → BetOutcome) (gid : String) (b : Bet) :
    settleBetRecord oc gid (settleBetRecord oc gid b) = settleBetRecord oc gid b := by
  have h := toSettle_settleBetRecord oc gid b
  generalize hb2 : settleBetRecord oc gid b = b2 at h ⊢
  simp [settleBetRecord, h]

/-- Folding the wallet update over bets none of which are selected for
settlement leaves the wallet unchanged. -/
theorem foldl_settle_skip (gid : String) (oc : Bet → BetOutcome) :
    ∀ (l : List Bet) (w : Wallet), (∀ b ∈ l, toSettle gid b = false) →
      l.foldl (fun w b => if toSettle gid b then settleWallet w b (oc b) else w) w = w := by
  intro l
  induction l with
  | nil => intro w _; rfl
  | cons b rest ih =>
      intro w h
      have hb : toSettle gid b = false := h b (by simp)
      have hrest : ∀ x ∈ rest, toSettle gid x = false := fun x hx => h x (by simp [hx])
      simp [List.foldl_cons, hb, ih w hrest]

/-- C4: settlement is idempotent — settling the same final game a second
time yields a ledger (wallet balance, totals, counters, and bets) identical
to settling it once, and the per-bet record update never credits or debits
an already-settled bet (a bet that is not PENDING is left untouched). -/
theorem settle_idempotent (st : Ledger) (g : Game) (oc : Bet → BetOutcome) :
    settle (settle st g oc) g oc = settle st g oc
    ∧ ∀ (gid : String) (b : Bet),
        b.status = BetStatus.PENDING ∨ settleBetRecord oc gid b = b := by
  constructor
  · by_cases hf : g.final = true
    · have h1 : ((st.bets.map (settleBetRecord oc g.id)).foldl
          (fun w b => if toSettle g.id b then settleWallet w b (oc b) else w)
          (st.bets.foldl (fun w b => if toSettle g.id b then settleWallet w b (oc b) else w)
            st.wallet))
        = st.bets.foldl (fun w b => if toSettle g.id b then settleWallet w b (oc b) else w)
            st.wallet := by
        apply foldl_settle_skip
        intro b hb
        rcases List.mem_map.mp hb with ⟨a, _, rfl⟩
        exact toSettle_settleBetRecord oc g.id a
      have h2 : (st.bets.map (settleBetRecord oc g.id)).map (settleBetRecord oc g.id)
          = st.bets.map (settleBetRecord oc g.id) := by
        rw [List.map_map]
        exact List.map_congr_left fun a _ => settleBetRecord_idem oc g.id a
      simp [settle, hf, h1, h2]
    · simp [settle, hf]
  · intro gid b
    by_cases hb : b.status = BetStatus.PENDING
    · exact Or.inl hb
    · have ht : toSettle gid b = false := by
        simp [toSettle, hb]
      exact Or.inr (by simp [settleBetRecord, ht])
